import Mathlib

/-!
Shallow embedding of the injected network-interceptor module of the
lee-su-threads extension (the response-mining engine): JSON values,
the identity map and its write paths, the recursive user-id miner,
the profile component-tree parser, the bulk-route extractor, the
debounced broadcast, the active profile fetcher and the user-id
lookup message handler, together with theorems settling the frozen
claims about them.
-/

set_option maxHeartbeats 1000000

/-- A JSON value as produced by a successful JSON.parse: null, booleans,
numbers (the payloads relevant here carry integers, so numeric leaves are
modelled as integers), strings, arrays and objects (field lists in key
order; JSON.parse yields unique keys). -/
inductive JVal where
  | null
  | bool (b : Bool)
  | num (n : Int)
  | str (s : String)
  | arr (xs : List JVal)
  | obj (fields : List (String × JVal))

/-- JavaScript truthiness of a JSON value: null, false, 0 and the empty
string are falsy; every array and object is truthy. -/
def jsTruthy : JVal → Bool
  | JVal.null => false
  | JVal.bool b => b
  | JVal.num n => n != 0
  | JVal.str s => !s.isEmpty
  | JVal.arr _ => true
  | JVal.obj _ => true

/-- Truthiness of a possibly-absent value: an absent property (undefined)
is falsy. -/
def jsTruthyOpt : Option JVal → Bool
  | some v => jsTruthy v
  | none => false

/-- Property access `v[k]`: a lookup on an object, undefined (none)
on every other value (property access on primitives and arrays yields
undefined for these string keys). -/
def getField : JVal → String → Option JVal
  | JVal.obj fields, k => (fields.find? (fun p => p.1 == k)).map (fun p => p.2)
  | _, _ => none

mutual
/-- JavaScript String(v) coercion on JSON values: arrays join their
elements with commas (null elements become empty), objects print as
[object Object]. -/
def jsString : JVal → String
  | JVal.null => "null"
  | JVal.bool true => "true"
  | JVal.bool false => "false"
  | JVal.num n => toString n
  | JVal.str s => s
  | JVal.arr xs => jsStringArr xs
  | JVal.obj _ => "[object Object]"

/-- Array.prototype.toString: join elements with commas, rendering null
elements as the empty string. -/
def jsStringArr : List JVal → String
  | [] => ""
  | [JVal.null] => ""
  | [v] => jsString v
  | JVal.null :: rest => "," ++ jsStringArr rest
  | v :: rest => jsString v ++ "," ++ jsStringArr rest
end

/-- The regex `^\d+$`: a nonempty all-ASCII-digits string. -/
def isDigitsStr (s : String) : Bool :=
  !s.isEmpty && s.toList.all Char.isDigit

/-- A word-or-dot character, the character class `[\w.]` of the source's
regexes (JavaScript \w is [A-Za-z0-9_]). -/
def isWordDotChar (c : Char) : Bool :=
  c.isAlphanum || c == '_' || c == '.'

/-- The regex `^[\w.]+$`: a nonempty string of word-or-dot characters. -/
def isUnameStr (s : String) : Bool :=
  !s.isEmpty && s.toList.all isWordDotChar

/-- The user-identity map (`userIdMap`): username keys to identifier
values in insertion order, as a JavaScript Map preserves it. -/
abbrev IdMap := List (String × String)

/-- Map.get: the value of the first (and by the write-path guards only)
entry for the key, undefined (none) if absent. -/
def mapGet (m : IdMap) (u : String) : Option String :=
  match m with
  | [] => none
  | (k, v) :: rest => if k = u then some v else mapGet rest u

/-- Map.has for the identity map. -/
def mapHas (m : IdMap) (u : String) : Bool :=
  match m with
  | [] => false
  | (k, _) :: rest => k = u || mapHas rest u

/-- Object property assignment on the pending-broadcast buffer: update an
existing key in place, otherwise append. -/
def setKey : List (String × String) → String → String → List (String × String)
  | [], k, v => [(k, v)]
  | (k', v') :: rest, k, v =>
      if k' = k then (k, v) :: rest else (k', v') :: setKey rest k v

/-- Each key occurs at most once in the map. -/
def nodupKeys : IdMap → Bool
  | [] => true
  | (k, _) :: rest => !mapHas rest k && nodupKeys rest

/-- How many entries of the map carry the given username key. -/
def countKey (m : IdMap) (u : String) : Nat :=
  (m.filter (fun p => p.1 = u)).length

/-- The module-level mutable state of the identity miner: the user-id map,
the pendingNewUserIds buffer awaiting broadcast, and the debounce timer
(broadcastTimeout) modelled by the instant it is due to fire, none when
no timer is armed. -/
structure MinerState where
  map : IdMap
  pending : List (String × String)
  deadline : Option Nat
  deriving DecidableEq

/-- The miner state at module initialization: empty map, empty buffer,
no timer armed. -/
def initMiner : MinerState := { map := [], pending := [], deadline := none }

/-- broadcastNewUserIds at instant `now`: clear any armed timer and arm a
fresh one firing 1000 ms later (the 1-second debounce). -/
def broadcastNewUserIds (now : Nat) (st : MinerState) : MinerState :=
  { st with deadline := some (now + 1000) }

/-- addUserId at instant `now`: if the username is not yet in the map,
insert the pair, record it in the pending buffer and re-arm the debounce
timer, reporting true; otherwise leave the state untouched and report
false. -/
def addUserId (now : Nat) (st : MinerState) (username userId : String) : MinerState × Bool :=
  if mapHas st.map username then (st, false)
  else
    (broadcastNewUserIds now
      { st with
        map := st.map ++ [(username, userId)]
        pending := setKey st.pending username userId }, true)

/-- The threads-load-userid-cache message listener: adopt each cached
pair in order, but only for usernames not already present in the map;
the pending buffer and timer are untouched. -/
def loadUserIdCache : List (String × String) → MinerState → MinerState
  | [], st => st
  | (u, v) :: rest, st =>
      loadUserIdCache rest
        (if mapHas st.map u then st
         else { st with map := st.map ++ [(u, v)] })

/-- A broadcast of newly discovered pairs: the instant the debounce timer
fired and the threads-new-user-ids payload it posted. -/
structure Broadcast where
  time : Nat
  data : List (String × String)
  deriving DecidableEq

/-- The armed debounce timer firing if it is due at instant `t`: when due,
it posts the pending buffer if nonempty and clears it; either way the
timer is disarmed. -/
def fireIfDue (t : Nat) (st : MinerState) : MinerState × Option Broadcast :=
  match st.deadline with
  | some d =>
      if d ≤ t then
        if st.pending.isEmpty then ({ st with deadline := none }, none)
        else ({ st with pending := [], deadline := none }, some ⟨d, st.pending⟩)
      else (st, none)
  | none => (st, none)

/-- Run a timeline of discovery events, each a timestamped addUserId call:
before each event any due timer fires; the broadcasts are collected in
order. -/
def runEvents : List (Nat × String × String) → MinerState → MinerState × List Broadcast
  | [], st => (st, [])
  | (t, u, i) :: rest, st =>
      let fired := fireIfDue t st
      let st1 := (addUserId t fired.1 u i).1
      let tail := runEvents rest st1
      (tail.1, fired.2.toList ++ tail.2)

/-- Run a timeline to quiescence: after the last event the armed timer, if
any, eventually fires at its deadline. -/
def runTimeline (events : List (Nat × String × String)) (st : MinerState) :
    MinerState × List Broadcast :=
  let r := runEvents events st
  match r.1.deadline with
  | some d =>
      if r.1.pending.isEmpty then ({ r.1 with deadline := none }, r.2)
      else ({ r.1 with pending := [], deadline := none }, r.2 ++ [⟨d, r.1.pending⟩])
  | none => r

/-- Consecutive discovery events are nondecreasing in time with each gap
strictly under 1000 ms (a single continuous burst). -/
def gapsUnderSecond : List (Nat × String × String) → Bool
  | [] => true
  | [_] => true
  | a :: b :: rest => (a.1 ≤ b.1 && b.1 < a.1 + 1000) && gapsUnderSecond (b :: rest)

/-- Every event's username is new at the moment it is processed: absent
from the map as extended by all earlier events of the list. -/
def allFresh : IdMap → List (Nat × String × String) → Bool
  | _, [] => true
  | m, (_, u, i) :: rest => !mapHas m u && allFresh (m ++ [(u, i)]) rest

/-- The username-to-id pairs carried by a list of discovery events. -/
def pairsOf (events : List (Nat × String × String)) : List (String × String) :=
  events.map (fun e => (e.2.1, e.2.2))

/-- JavaScript `a || b` on a possibly-absent left operand: the left value
when present and truthy, otherwise the right operand. -/
def jsOrElse (a : Option JVal) (b : JVal) : JVal :=
  match a with
  | some x => if jsTruthy x then x else b
  | none => b

/-- The id+username check of extractUserIds at one object node: the
candidate pair it passes to addUserId, if any (both fields truthy and the
two validation regexes passing). -/
def idPairCand (v : JVal) : List (String × String) :=
  match getField v "id", getField v "username" with
  | some idv, some uv =>
      if jsTruthy idv && jsTruthy uv then
        if isDigitsStr (jsString idv) && isUnameStr (jsString uv) then
          [(jsString uv, jsString idv)]
        else []
      else []
  | _, _ => []

/-- The pk+username check of extractUserIds at one object node. -/
def pkPairCand (v : JVal) : List (String × String) :=
  match getField v "pk", getField v "username" with
  | some pkv, some uv =>
      if jsTruthy pkv && jsTruthy uv then
        if isDigitsStr (jsString pkv) && isUnameStr (jsString uv) then
          [(jsString uv, jsString pkv)]
        else []
      else []
  | _, _ => []

/-- The nested-user check of extractUserIds: a truthy `user` property of
object type (in JavaScript arrays also have typeof object), whose
String(user.pk || user.id || '') and String(user.username || '') pass the
two validation regexes. -/
def nestedUserCand (v : JVal) : List (String × String) :=
  match getField v "user" with
  | some u =>
      if jsTruthy u && (match u with | JVal.obj _ => true | JVal.arr _ => true | _ => false) then
        let userId := jsString (jsOrElse (getField u "pk") (jsOrElse (getField u "id") (JVal.str "")))
        let username := jsString (jsOrElse (getField u "username") (JVal.str ""))
        if isDigitsStr userId && isUnameStr username then [(username, userId)] else []
      else []
  | none => []

/-- All candidate pairs extractUserIds passes to addUserId at one node, in
the order the three independent checks run. -/
def nodeCandidates (v : JVal) : List (String × String) :=
  idPairCand v ++ pkPairCand v ++ nestedUserCand v

/-- Run addUserId on each candidate pair in order. -/
def addCandidates (now : Nat) (cs : List (String × String)) (st : MinerState) : MinerState :=
  match cs with
  | [] => st
  | (u, i) :: rest => addCandidates now rest (addUserId now st u i).1

mutual
/-- extractUserIds: at each object or array node run the three candidate
checks (property access yields nothing on arrays), then recurse into every
field value and array element in key order; scalar values are skipped. -/
def extractUserIds (now : Nat) : JVal → MinerState → MinerState
  | JVal.obj fields, st => extractUserIdsFields now fields (addCandidates now (nodeCandidates (JVal.obj fields)) st)
  | JVal.arr xs, st => extractUserIdsList now xs (addCandidates now (nodeCandidates (JVal.arr xs)) st)
  | _, st => st

/-- Recursion of extractUserIds over an object's field values. -/
def extractUserIdsFields (now : Nat) : List (String × JVal) → MinerState → MinerState
  | [], st => st
  | (_, v) :: rest, st => extractUserIdsFields now rest (extractUserIds now v st)

/-- Recursion of extractUserIds over an array's elements. -/
def extractUserIdsList (now : Nat) : List JVal → MinerState → MinerState
  | [], st => st
  | v :: rest, st => extractUserIdsList now rest (extractUserIds now v st)
end

mutual
/-- The usernames of every candidate pair fired anywhere in the tree, in
traversal order. -/
def yieldedUsernames : JVal → List String
  | JVal.obj fields => (nodeCandidates (JVal.obj fields)).map (fun p => p.1) ++ yieldedUsernamesFields fields
  | JVal.arr xs => (nodeCandidates (JVal.arr xs)).map (fun p => p.1) ++ yieldedUsernamesList xs
  | _ => []

/-- yieldedUsernames over an object's field values. -/
def yieldedUsernamesFields : List (String × JVal) → List String
  | [] => []
  | (_, v) :: rest => yieldedUsernames v ++ yieldedUsernamesFields rest

/-- yieldedUsernames over an array's elements. -/
def yieldedUsernamesList : List JVal → List String
  | [] => []
  | v :: rest => yieldedUsernames v ++ yieldedUsernamesList rest
end

/-- Occurrence of a value as a node the recursive walks visit: the tree
itself, or a node of some field value or array element. -/
inductive InTree : JVal → JVal → Prop where
  | refl (v : JVal) : InTree v v
  | objField {w v : JVal} {fields : List (String × JVal)} {k : String} :
      (k, v) ∈ fields → InTree w v → InTree w (JVal.obj fields)
  | arrElem {w v : JVal} {xs : List JVal} :
      v ∈ xs → InTree w v → InTree w (JVal.arr xs)

/-- A JavaScript \s whitespace character (the ASCII portion, which is all
these payloads carry). -/
def isWsChar (c : Char) : Bool :=
  c == '\x20' || c == '\x09' || c == '\x0a' || c == '\x0d' || c == '\x0b' || c == '\x0c'

/-- String.prototype.trim on a character list. -/
def trimChars (cs : List Char) : List Char :=
  ((cs.dropWhile isWsChar).reverse.dropWhile isWsChar).reverse

/-- An ECMAScript line terminator, the four characters the dot of a
regex cannot match: LF, CR, LS (U+2028) and PS (U+2029). -/
def isLineTerm (c : Char) : Bool :=
  c == '\n' || c == '\r' || c == '\u2028' || c == '\u2029'

/-- Match `\s*\(@` at a position: skip the maximal whitespace run (the
following literal ( is not whitespace, so no backtracking arises) and
require the two literals, returning the rest. -/
def matchParenAt (cs : List Char) : Option (List Char) :=
  match cs.dropWhile isWsChar with
  | '(' :: '@' :: rest => some rest
  | _ => none

/-- Backtracking of `^(.+?)\s*\(@([\w.]+)\)$`: the lazy group grows one
non-line-terminator character at a time (the dot cannot cross LF, CR, LS
or PS); at each stop the tail must be whitespace, literal (@, a nonempty
word-dot run and a final ) ending the string. Returns group1 (reversed
accumulation) and group2. -/
def patParenClosedAux : List Char → List Char → Option (List Char × List Char)
  | _, [] => none
  | acc, c :: rest =>
      if isLineTerm c then none
      else
        let acc' := c :: acc
        match matchParenAt rest with
        | some tail =>
            let u := tail.takeWhile isWordDotChar
            if !u.isEmpty && tail.dropWhile isWordDotChar == [')'] then
              some (acc'.reverse, u)
            else patParenClosedAux acc' rest
        | none => patParenClosedAux acc' rest

/-- The regex `^(.+?)\s*\(@([\w.]+)\)$` on a whole string: captures
(group1, group2) when it matches. -/
def patParenClosed (s : String) : Option (List Char × List Char) :=
  patParenClosedAux [] s.toList

/-- Backtracking of `^(.+?)\s*\(@([\w.]+)`: as above (the lazy group
cannot cross a line terminator) but without the closing parenthesis and
end anchor; group2 is the maximal word-dot run. -/
def patParenOpenAux : List Char → List Char → Option (List Char × List Char)
  | _, [] => none
  | acc, c :: rest =>
      if isLineTerm c then none
      else
        let acc' := c :: acc
        match matchParenAt rest with
        | some tail =>
            let u := tail.takeWhile isWordDotChar
            if !u.isEmpty then some (acc'.reverse, u)
            else patParenOpenAux acc' rest
        | none => patParenOpenAux acc' rest

/-- The regex `^(.+?)\s*\(@([\w.]+)` on a whole string. -/
def patParenOpen (s : String) : Option (List Char × List Char) :=
  patParenOpenAux [] s.toList

/-- The unanchored regex `@([\w.]+)`: the earliest @ followed by at least
one word-dot character wins, capturing the maximal run after it. -/
def patBareAt : List Char → Option (List Char)
  | [] => none
  | '@' :: rest =>
      let u := rest.takeWhile isWordDotChar
      if !u.isEmpty then some u else patBareAt rest
  | _ :: rest => patBareAt rest

/-- The regex `^(.+?)\s*\(@` used for the best-effort display name in the
bare-@ branch: the minimal nonempty group of non-line-terminator
characters followed by whitespace and the literal (@. -/
def patNameBeforeParenAux : List Char → List Char → Option (List Char)
  | _, [] => none
  | acc, c :: rest =>
      if isLineTerm c then none
      else
        let acc' := c :: acc
        match matchParenAt rest with
        | some _ => some acc'.reverse
        | none => patNameBeforeParenAux acc' rest

/-- The regex `^(.+?)\s*\(@` on a whole string, returning group1. -/
def patNameBeforeParen (s : String) : Option (List Char) :=
  patNameBeforeParenAux [] s.toList

/-- The mutable result record extractProfileInfo accumulates, including
the transient bookkeeping fields: the label counter and unused value
counter are none while undefined (before first initialization), and the
last-label index is none when undefined or reset to null. -/
structure ProfileState where
  displayName : Option String
  username : Option String
  joined : Option JVal
  location : Option JVal
  profileImage : Option String
  labelCount : Option Nat
  lastLabelIndex : Option Nat
  valueCount : Option Nat
  userIdOnly : Bool

/-- The fresh result record `{}` extractProfileInfo starts from. -/
def emptyProfile : ProfileState :=
  { displayName := none, username := none, joined := none, location := none
    profileImage := none, labelCount := none, lastLabelIndex := none
    valueCount := none, userIdOnly := false }

/-- The counter initialization at the head of extractProfileInfo: when the
label counter is still undefined, both it and the value counter become 0. -/
def initCounters (r : ProfileState) : ProfileState :=
  match r.labelCount with
  | none => { r with labelCount := some 0, valueCount := some 0 }
  | some _ => r

/-- Truthiness of the last-label index: a pending label is a nonzero
number (indices start at 1); none covers both undefined and the null
reset. -/
def labelPending (r : ProfileState) : Bool :=
  match r.lastLabelIndex with
  | some n => n != 0
  | none => false

/-- Strict equality of a possibly-absent value with a string literal, the
JavaScript `x === 'lit'` test. -/
def isStrVal (x : Option JVal) (lit : String) : Bool :=
  match x with
  | some (JVal.str s) => s == lit
  | _ => false

/-- The bk.components.Text branch: a truthy Text component whose
text_style is the string semibold and whose text is truthy counts as a
label (counter incremented and recorded); one styled normal with truthy
text while a label is pending is consumed as that label's value, assigned
by the pending ordinal (2 joined, 3 location, each first-writer-wins,
anything else discarded), and the pending marker is reset. The label
counter is initialized before this branch runs, so its none case is
unreachable from parseProfileResponse and is kept unchanged. -/
def textStep (v : JVal) (r : ProfileState) : ProfileState :=
  match getField v "bk.components.Text" with
  | some comp =>
      if jsTruthy comp then
        let text := getField comp "text"
        let style := getField comp "text_style"
        if isStrVal style "semibold" && jsTruthyOpt text then
          match r.labelCount with
          | some n => { r with labelCount := some (n + 1), lastLabelIndex := some (n + 1) }
          | none => r
        else if isStrVal style "normal" && jsTruthyOpt text && labelPending r then
          let r' :=
            if r.lastLabelIndex == some 2 && !jsTruthyOpt r.joined then
              { r with joined := text }
            else if r.lastLabelIndex == some 3 && !jsTruthyOpt r.location then
              { r with location := text }
            else r
          { r' with lastLabelIndex := none }
        else r
      else r
  | none => r

/-- The concatenation of the text of all bk.components.TextSpan children
(JavaScript += coerces a truthy text to a string; a falsy or absent text
contributes the empty string). -/
def spanText : List JVal → String
  | [] => ""
  | child :: rest =>
      (match getField child "bk.components.TextSpan" with
       | some span =>
           if jsTruthy span then
             (if jsTruthyOpt (getField span "text") then
                match getField span "text" with
                | some tv => jsString tv
                | none => ""
              else "")
           else ""
       | none => "") ++ spanText rest

/-- The children of a truthy bk.components.RichText component: its
children property when that is an array, else the empty fallback (a truthy
non-array children would make the source's for..of throw inside the
response handler's try; no claim reaches that shape). -/
def richChildren (comp : JVal) : List JVal :=
  match getField comp "children" with
  | some (JVal.arr xs) => xs
  | _ => []

/-- The bk.components.RichText branch: concatenate the span texts and try,
in order, the closed Name (@user) pattern, the unclosed Name (@user
pattern, and the bare @user pattern with its best-effort preceding name;
pattern captures are assigned to displayName and username unconditionally
(whichever pattern fires overwrites earlier values). -/
def richTextStep (v : JVal) (r : ProfileState) : ProfileState :=
  match getField v "bk.components.RichText" with
  | some comp =>
      if jsTruthy comp then
        let fullText := spanText (richChildren comp)
        match patParenClosed fullText with
        | some (g1, g2) =>
            { r with displayName := some (String.mk (trimChars g1))
                     username := some (String.mk g2) }
        | none =>
            match patParenOpen fullText with
            | some (g1, g2) =>
                { r with displayName := some (String.mk (trimChars g1))
                         username := some (String.mk g2) }
            | none =>
                match patBareAt fullText.toList with
                | some u =>
                    let r' := { r with username := some (String.mk u) }
                    match patNameBeforeParen fullText with
                    | some g1 => { r' with displayName := some (String.mk (trimChars g1)) }
                    | none => r'
                | none => r
      else r
  | none => r

/-- The bk.components.Image branch: a truthy url containing the trusted
host substring is captured as the avatar (the source assigns it
unconditionally, so a later image overwrites). A truthy non-string url
would make the source's .includes call throw; no claim reaches it. -/
def imageStep (v : JVal) (r : ProfileState) : ProfileState :=
  match getField v "bk.components.Image" with
  | some comp =>
      (match getField comp "url" with
       | some (JVal.str s) =>
           if !s.isEmpty && (s.splitOn "cdninstagram.com").length > 1 then
             { r with profileImage := some s }
           else r
       | _ => r)
  | none => r

mutual
/-- extractProfileInfo: depth-first walk of the parsed component tree, at
each object or array node initializing the counters, running the Text,
RichText and Image branches (property access yields nothing on arrays),
then recursing into every field value and array element in key order. -/
def extractProfileInfo : JVal → ProfileState → ProfileState
  | JVal.obj fields, r =>
      extractProfileInfoFields fields
        (imageStep (JVal.obj fields)
          (richTextStep (JVal.obj fields)
            (textStep (JVal.obj fields) (initCounters r))))
  | JVal.arr xs, r =>
      extractProfileInfoList xs
        (imageStep (JVal.arr xs)
          (richTextStep (JVal.arr xs)
            (textStep (JVal.arr xs) (initCounters r))))
  | _, r => r

/-- Recursion of extractProfileInfo over an object's field values. -/
def extractProfileInfoFields : List (String × JVal) → ProfileState → ProfileState
  | [], r => r
  | (_, v) :: rest, r => extractProfileInfoFields rest (extractProfileInfo v r)

/-- Recursion of extractProfileInfo over an array's elements. -/
def extractProfileInfoList : List JVal → ProfileState → ProfileState
  | [], r => r
  | v :: rest, r => extractProfileInfoList rest (extractProfileInfo v r)
end

/-- parseProfileResponse with the body already tokenised: none stands for
response text that fails JSON.parse after the for (;;); anti-hijacking
guard strip, in which case the parse error is logged and no record is
produced; otherwise the record is the full walk from a fresh result. -/
def parseProfileValue (parsed : Option JVal) : Option ProfileState :=
  match parsed with
  | some data => some (extractProfileInfo data emptyProfile)
  | none => none

/-- Truthiness of the username field of a record (an absent username is
falsy, a present one is a nonempty string or not). -/
def usernameTruthy (r : ProfileState) : Bool :=
  match r.username with
  | some s => !s.isEmpty
  | none => false

/-- The three delete statements run before any record leaves the module:
the label counter, last-label index and value counter are removed. -/
def stripBookkeeping (r : ProfileState) : ProfileState :=
  { r with labelCount := none, lastLabelIndex := none, valueCount := none }

/-- The passive response observers (the fetch interceptor on
about_this_profile_async_action responses and the identical XHR load
handler): parse, and only when the record has a truthy username, strip the
bookkeeping fields and dispatch it as a threads-profile-extracted event. -/
def passiveProfileEmission (parsed : Option JVal) : Option ProfileState :=
  match parseProfileValue parsed with
  | some info => if usernameTruthy info then some (stripBookkeeping info) else none
  | none => none

/-- Hex digit value of a character, if it is one (0-9, a-f, A-F by code
point ranges). -/
def hexVal (c : Char) : Option Nat :=
  let n := c.toNat
  if 48 ≤ n ∧ n ≤ 57 then some (n - 48)
  else if 97 ≤ n ∧ n ≤ 102 then some (n - 87)
  else if 65 ≤ n ∧ n ≤ 70 then some (n - 55)
  else none

/-- Decode the body of the JSON string literal JSON.parse sees when the
route key is wrapped in quotes: escapes are decoded, a raw quote or
backslash at the end, a raw control character, or a bad escape makes the
whole parse fail (none). Surrogate halves of a \u escape are combined;
a lone surrogate (which real JSON.parse would keep) aborts instead, a
deviation no claim reaches. -/
def jsonUnescapeAux : List Char → Option (List Char)
  | [] => some []
  | '"' :: _ => none
  | '\\' :: rest =>
      (match rest with
       | '"' :: more => (jsonUnescapeAux more).map (fun t => '"' :: t)
       | '\\' :: more => (jsonUnescapeAux more).map (fun t => '\\' :: t)
       | '/' :: more => (jsonUnescapeAux more).map (fun t => '/' :: t)
       | 'b' :: more => (jsonUnescapeAux more).map (fun t => '\x08' :: t)
       | 'f' :: more => (jsonUnescapeAux more).map (fun t => '\x0c' :: t)
       | 'n' :: more => (jsonUnescapeAux more).map (fun t => '\n' :: t)
       | 'r' :: more => (jsonUnescapeAux more).map (fun t => '\r' :: t)
       | 't' :: more => (jsonUnescapeAux more).map (fun t => '\t' :: t)
       | 'u' :: h1 :: h2 :: h3 :: h4 :: more =>
           (match hexVal h1, hexVal h2, hexVal h3, hexVal h4 with
            | some a, some b, some c, some d =>
                let n := ((a * 16 + b) * 16 + c) * 16 + d
                if 0xd800 ≤ n && n ≤ 0xdfff then
                  (match more with
                   | '\\' :: 'u' :: g1 :: g2 :: g3 :: g4 :: more2 =>
                       (match hexVal g1, hexVal g2, hexVal g3, hexVal g4 with
                        | some e, some f, some g, some h =>
                            let m := ((e * 16 + f) * 16 + g) * 16 + h
                            if 0xd800 ≤ n && n ≤ 0xdbff && 0xdc00 ≤ m && m ≤ 0xdfff then
                              let cp := 0x10000 + (n - 0xd800) * 0x400 + (m - 0xdc00)
                              (jsonUnescapeAux more2).map (fun t => Char.ofNat cp :: t)
                            else none
                        | _, _, _, _ => none)
                   | _ => none)
                else (jsonUnescapeAux more).map (fun t => Char.ofNat n :: t)
            | _, _, _, _ => none)
       | _ => none)
  | c :: rest =>
      if c.toNat < 0x20 then none
      else (jsonUnescapeAux rest).map (fun t => c :: t)

/-- The route-key unicode-unescape of the bulk-route handler:
JSON.parse of the quoted key, falling back to the raw key when that
parse throws. -/
def decodeRouteKey (k : String) : String :=
  match jsonUnescapeAux k.toList with
  | some cs => String.mk cs
  | none => k

/-- The regex `^\/@([\w.]+)` on the decoded route key: a leading /@
followed by at least one word-dot character, capturing the maximal run. -/
def leadingAtUsername (s : String) : Option String :=
  match s.toList with
  | '/' :: '@' :: rest =>
      let u := rest.takeWhile isWordDotChar
      if !u.isEmpty then some (String.mk u) else none
  | _ => none

/-- Optional-chained property path lookup `x?.k1?.k2...` after a first
access that is known not to throw: absent or non-object intermediate
values yield undefined. -/
def getPath : JVal → List String → Option JVal
  | v, [] => some v
  | v, k :: rest =>
      match getField v k with
      | some w => getPath w rest
      | none => none

/-- The identifier lookup of the bulk-route handler on one route
descriptor: `routeData.result?.exports?.rootView?.props?.user_id ||
routeData.result?.exports?.hostableView?.props?.user_id`. The very first
property access is not optional-chained, so a null descriptor throws a
TypeError (error) before any lookup; otherwise the first path's value
when truthy, else the second path's value (possibly absent). -/
def routeDescriptorUserId (routeData : JVal) : Except Unit (Option JVal) :=
  match routeData with
  | JVal.null => Except.error ()
  | _ =>
      let first := getPath routeData ["result", "exports", "rootView", "props", "user_id"]
      let second := getPath routeData ["result", "exports", "hostableView", "props", "user_id"]
      Except.ok (match first with
                 | some x => if jsTruthy x then some x else second
                 | none => second)

/-- One iteration of the bulk-route loop: decode the key, match the
leading /@username, look up the identifier and insert its string form via
addUserId when truthy. A thrown TypeError (null descriptor) is reported
as an error with the state unchanged. -/
def routeStep (now : Nat) (st : MinerState) (routeKey : String) (routeData : JVal) :
    Except Unit MinerState :=
  let decodedKey := decodeRouteKey routeKey
  match leadingAtUsername decodedKey with
  | some username =>
      (match routeDescriptorUserId routeData with
       | Except.error _ => Except.error ()
       | Except.ok cand =>
           Except.ok (match cand with
                      | some uid =>
                          if jsTruthy uid then (addUserId now st username (jsString uid)).1
                          else st
                      | none => st))
  | none =>
      (match routeDescriptorUserId routeData with
       | Except.error _ =>
           -- the lookup expression sits inside the if; an unmatched key
           -- never reaches it, so no throw occurs
           Except.ok st
       | Except.ok _ => Except.ok st)

/-- The bulk-route loop over Object.entries of the payloads object: the
first thrown TypeError aborts the remaining keys (the surrounding
interceptor try swallows it, logging in the XHR variant); the flag
reports whether an error was thrown. -/
def processRouteEntries (now : Nat) :
    List (String × JVal) → MinerState → MinerState × Bool
  | [], st => (st, false)
  | (k, rd) :: rest, st =>
      match routeStep now st k rd with
      | Except.error _ => (st, true)
      | Except.ok st' => processRouteEntries now rest st'

/-- The session token bag captured from outgoing request bodies or the
page scan; fetchProfileInfo only requires that one exists (each field is
defaulted independently when building the request body). -/
structure TokenBag where
  fb_dtsg : Option String
  lsd : Option String
  jazoest : Option String

/-- A delivered HTTP response for the active profile fetch: its status
and the parse of its body text after the anti-hijack strip (none for a
body that JSON.parse rejects), consulted only if the fetcher reads the
body. -/
structure FetchResponse where
  status : Nat
  parsedBody : Option JVal

/-- An externally observable effect of fetchProfileInfo: the dedicated
rate-limit DOM event or a threads-profile-extracted DOM event carrying a
record. -/
inductive FetchEvent where
  | rateLimited
  | profileExtracted (rec : ProfileState)

/-- The value fetchProfileInfo resolves with: null, the distinguished
rate-limited marker object, or the extracted record. -/
inductive FetchResult where
  | nullResult
  | rateLimitedMarker
  | record (rec : ProfileState)

/-- The full outcome of one fetchProfileInfo call: the resolved value,
the DOM events dispatched in order, and whether the response body was
read (response.text()). -/
structure FetchOutcome where
  result : FetchResult
  events : List FetchEvent
  bodyRead : Bool

/-- The reverse scan of the identity map in fetchProfileInfo: the first
entry in insertion order whose identifier strictly equals the target
identifier's string form, yielding its username. -/
def reverseLookup (m : IdMap) (targetIdStr : String) : Option String :=
  match m with
  | [] => none
  | (uname, uid) :: rest =>
      if uid = targetIdStr then some uname else reverseLookup rest targetIdStr

/-- fetchProfileInfo given its target identifier (already coerced to the
string every use site applies), the current token bag, identity map and
the response the issued request would deliver. Without tokens it fails
fast; a 429 status short-circuits to the rate-limited marker and the
dedicated event without reading the body; otherwise the body is read and
parsed, a record lacking a truthy username is completed from the map's
reverse lookup, and a record with a truthy username, joined or location
is stripped of bookkeeping, given a placeholder username when still
unresolved, dispatched and returned; anything else resolves null. The
network-failure catch path is outside this model, which assumes a
delivered response. This stage is the username resolution. -/
def resolveUsername (map : IdMap) (targetIdStr : String) (parsed : Option ProfileState) :
    Option ProfileState :=
  match parsed with
  | some info =>
      if !usernameTruthy info then
        match reverseLookup map targetIdStr with
        | some uname => some { info with username := some uname }
        | none => some info
      else some info
  | none => none

/-- The emission tail of fetchProfileInfo on the resolved record: when it
has a truthy username, joined or location, strip the bookkeeping fields,
fill in the placeholder username and id-only tag when the username is
still not truthy, dispatch the record and resolve with it; otherwise
resolve null with nothing dispatched. -/
def emitResolved (targetIdStr : String) (info : ProfileState) : FetchOutcome :=
  if usernameTruthy info || jsTruthyOpt info.joined || jsTruthyOpt info.location then
    let stripped := stripBookkeeping info
    let final :=
      if !usernameTruthy stripped then
        { stripped with username := some ("user_" ++ targetIdStr), userIdOnly := true }
      else stripped
    { result := FetchResult.record final
      events := [FetchEvent.profileExtracted final]
      bodyRead := true }
  else { result := FetchResult.nullResult, events := [], bodyRead := true }

/-- fetchProfileInfo composed of the stages above. -/
def fetchProfileInfo (tokens : Option TokenBag) (map : IdMap) (targetIdStr : String)
    (resp : FetchResponse) : FetchOutcome :=
  match tokens with
  | none => { result := FetchResult.nullResult, events := [], bodyRead := false }
  | some _ =>
      if resp.status = 429 then
        { result := FetchResult.rateLimitedMarker
          events := [FetchEvent.rateLimited]
          bodyRead := false }
      else
        match resolveUsername map targetIdStr (parseProfileValue resp.parsedBody) with
        | some info => emitResolved targetIdStr info
        | none => { result := FetchResult.nullResult, events := [], bodyRead := true }

/-- The threads-userid-response message posted back for a lookup
request: the echoed request id and the map's value for the username,
normalized to null when absent (or falsy). -/
structure UserIdResponse where
  requestId : JVal
  userId : Option String

/-- The threads-userid-request listener: for a received lookup message it
posts exactly one threads-userid-response carrying the identical
requestId and `userIdMap.get(username) || null`. -/
def handleUserIdRequest (map : IdMap) (requestId : JVal) (username : String) :
    List UserIdResponse :=
  [{ requestId := requestId
     userId := match mapGet map username with
               | some v => if v.isEmpty then none else some v
               | none => none }]

/-- A component node holding one text block with the given text and
style. -/
def mkTextNode (text style : String) : JVal :=
  JVal.obj [("bk.components.Text",
    JVal.obj [("text", JVal.str text), ("text_style", JVal.str style)])]

/-- A concrete route descriptor exposing the identifier at the rootView
property path. -/
def demoRouteDescB : JVal :=
  JVal.obj [("result", JVal.obj [("exports", JVal.obj [("rootView",
    JVal.obj [("props", JVal.obj [("user_id", JVal.str "7")])])])])]

/-- A concrete bulk-route payload whose first descriptor is null and whose
second matches /@b with an identifier at the rootView path. -/
def demoRouteEntries : List (String × JVal) :=
  [("/@a/x", JVal.null), ("/@b/y", demoRouteDescB)]

/-- Tail burst condition relative to a previous event at `tl`: each event
is no earlier than its predecessor and strictly less than one second
after it. -/
def gapsFrom (tl : Nat) : List (Nat × String × String) → Bool
  | [] => true
  | e :: rest => (tl ≤ e.1 && e.1 < tl + 1000) && gapsFrom e.1 rest

/-- The time of the last event, with a base for the empty list. -/
def lastTimeFrom (tl : Nat) : List (Nat × String × String) → Nat
  | [] => tl
  | e :: rest => lastTimeFrom e.1 rest

/-- The time of the last event of a nonempty timeline. -/
def lastEventTime (events : List (Nat × String × String)) : Nat :=
  lastTimeFrom 0 events

/-- A concrete profile component tree carrying one rich-text name block,
used by concrete instantiations. -/
def demoJaneTree : JVal :=
  JVal.obj [("bk.components.RichText",
    JVal.obj [("children", JVal.arr [JVal.obj [("bk.components.TextSpan",
      JVal.obj [("text", JVal.str "Jane (@jane)")])]])])]

/-- A concrete profile component tree carrying a second-ordinal label and
its value but no name block, used by concrete instantiations. -/
def demoJoinedTree : JVal :=
  JVal.arr [
    JVal.obj [("bk.components.Text",
      JVal.obj [("text", JVal.str "Name"), ("text_style", JVal.str "semibold")])],
    JVal.obj [("bk.components.Text",
      JVal.obj [("text", JVal.str "Joined"), ("text_style", JVal.str "semibold")])],
    JVal.obj [("bk.components.Text",
      JVal.obj [("text", JVal.str "March 2020"), ("text_style", JVal.str "normal")])]]

theorem mapHas_append (m l : IdMap) (u : String) :
    mapHas (m ++ l) u = (mapHas m u || mapHas l u) := by
  induction m with
  | nil => simp [mapHas]
  | cons p rest ih =>
      obtain ⟨k, v⟩ := p
      by_cases h : k = u <;> simp [mapHas, h, ih, Bool.or_assoc]

theorem mapGet_append_left {m : IdMap} {u : String} {v : String} (l : IdMap)
    (h : mapGet m u = some v) : mapGet (m ++ l) u = some v := by
  induction m with
  | nil => simp [mapGet] at h
  | cons p rest ih =>
      obtain ⟨k, w⟩ := p
      by_cases hk : k = u
      · simpa [mapGet, hk] using h
      · simp [mapGet, hk] at h ⊢
        exact ih h

theorem mapHas_eq_isSome (m : IdMap) (u : String) :
    mapHas m u = (mapGet m u).isSome := by
  induction m with
  | nil => simp [mapHas, mapGet]
  | cons p rest ih =>
      obtain ⟨k, v⟩ := p
      by_cases hk : k = u <;> simp [mapHas, mapGet, hk, ih]

theorem addUserId_get_preserved {st : MinerState} {u v : String}
    (now : Nat) (u' i' : String) (h : mapGet st.map u = some v) :
    mapGet ((addUserId now st u' i').1).map u = some v := by
  unfold addUserId
  by_cases hh : mapHas st.map u'
  · simp [hh]
    exact h
  · simp [hh, broadcastNewUserIds]
    exact mapGet_append_left _ h

theorem loadUserIdCache_get_preserved {u v : String} (entries : List (String × String)) :
    ∀ st : MinerState, mapGet st.map u = some v →
      mapGet (loadUserIdCache entries st).map u = some v := by
  induction entries with
  | nil => intro st h; simpa [loadUserIdCache] using h
  | cons p rest ih =>
      intro st h
      obtain ⟨k, w⟩ := p
      unfold loadUserIdCache
      by_cases hk : mapHas st.map k
      · simp [hk]
        exact ih st h
      · simp [hk]
        exact ih _ (mapGet_append_left _ h)

/-- C2: IdentityMap insertion is first-writer-wins under every write path:
an addUserId call never changes an existing binding, the cache pre-seeding
listener never changes an existing binding, and inserting bob to 1 then
bob to 2 leaves bob bound to 1. -/
theorem identityMap_first_writer_wins :
    (∀ (now : Nat) (st : MinerState) (u v u' i' : String),
        mapGet st.map u = some v → mapGet ((addUserId now st u' i').1).map u = some v)
    ∧ (∀ (entries : List (String × String)) (st : MinerState) (u v : String),
        mapGet st.map u = some v → mapGet (loadUserIdCache entries st).map u = some v)
    ∧ mapGet ((addUserId 0 (addUserId 0 initMiner "bob" "1").1 "bob" "2").1).map "bob" = some "1" := by
  refine ⟨?_, ?_, ?_⟩
  · intro now st u v u' i' h
    exact addUserId_get_preserved now u' i' h
  · intro entries st u v h
    exact loadUserIdCache_get_preserved entries st h
  · decide

/-- Witness for C2: both preservation conjuncts applied at a concrete map
already binding bob to 1, a later insert attempt for bob and a cache
message carrying bob. -/
theorem identityMap_first_writer_wins_witness :
    mapGet ((addUserId 7 ⟨[("bob", "1")], [], none⟩ "bob" "2").1).map "bob" = some "1"
    ∧ mapGet (loadUserIdCache [("bob", "9"), ("eve", "3")] ⟨[("bob", "1")], [], none⟩).map "bob"
        = some "1" := by
  constructor
  · exact identityMap_first_writer_wins.1 7 ⟨[("bob", "1")], [], none⟩ "bob" "1" "bob" "2" (by decide)
  · exact identityMap_first_writer_wins.2.1 [("bob", "9"), ("eve", "3")] ⟨[("bob", "1")], [], none⟩
      "bob" "1" (by decide)

/-- C10: every received threads-userid-request produces exactly one
threads-userid-response echoing the request id; the userId it carries is
the IdentityMap's value for the username when present (the map's values
are nonempty digit strings, so the || null normalization does not fire on
a stored value) and null when the username is unknown. -/
theorem userid_request_single_response (map : IdMap) (requestId : JVal) (username : String) :
    ∃ resp : UserIdResponse,
      handleUserIdRequest map requestId username = [resp]
      ∧ resp.requestId = requestId
      ∧ (mapGet map username = none → resp.userId = none)
      ∧ (∀ v, mapGet map username = some v → ¬v.isEmpty → resp.userId = some v) := by
  refine ⟨_, rfl, rfl, ?_, ?_⟩
  · intro h
    simp [h]
  · intro v h hv
    simp [h, hv]

/-- Witness for C10: a concrete known lookup answered with the stored
identifier and a concrete unknown lookup answered with null. -/
theorem userid_request_single_response_witness :
    (∃ resp : UserIdResponse,
      handleUserIdRequest [("bob", "1")] (JVal.str "r7") "bob" = [resp]
      ∧ resp.userId = some "1")
    ∧ (∃ resp : UserIdResponse,
      handleUserIdRequest [("bob", "1")] (JVal.str "r8") "zoe" = [resp]
      ∧ resp.userId = none) := by
  constructor
  · obtain ⟨resp, h1, _, _, h4⟩ :=
      userid_request_single_response [("bob", "1")] (JVal.str "r7") "bob"
    exact ⟨resp, h1, h4 "1" (by decide) (by decide)⟩
  · obtain ⟨resp, h1, _, h3, _⟩ :=
      userid_request_single_response [("bob", "1")] (JVal.str "r8") "zoe"
    exact ⟨resp, h1, h3 (by decide)⟩

theorem placeholder_username_nonempty (tid : String) : ("user_" ++ tid).isEmpty = false := by
  rw [Bool.eq_false_iff]
  intro h
  rw [String.isEmpty_iff] at h
  have h2 := congrArg String.data h
  rw [String.data_append] at h2
  simp at h2

/-- C7: with a session token bag present, a 429 response makes
fetchProfileInfo resolve with the rate-limited marker and dispatch
exactly the dedicated threads-rate-limited event, without reading (hence
without parsing) the response body. -/
theorem fetch_429_short_circuits (bag : TokenBag) (map : IdMap) (tid : String)
    (resp : FetchResponse) (h : resp.status = 429) :
    fetchProfileInfo (some bag) map tid resp =
      { result := FetchResult.rateLimitedMarker
        events := [FetchEvent.rateLimited]
        bodyRead := false } := by
  unfold fetchProfileInfo
  simp [h]

/-- Witness for C7: a concrete 429 response with a concrete token bag. -/
theorem fetch_429_short_circuits_witness :
    fetchProfileInfo (some ⟨some "tok", none, none⟩) [] "55" ⟨429, none⟩ =
      { result := FetchResult.rateLimitedMarker
        events := [FetchEvent.rateLimited]
        bodyRead := false } :=
  fetch_429_short_circuits ⟨some "tok", none, none⟩ [] "55" ⟨429, none⟩ rfl

theorem emitResolved_bookkeeping {tid : String} {info : ProfileState} {rec : ProfileState}
    (h : (emitResolved tid info).result = FetchResult.record rec
       ∨ FetchEvent.profileExtracted rec ∈ (emitResolved tid info).events) :
    rec.labelCount = none ∧ rec.lastLabelIndex = none ∧ rec.valueCount = none := by
  unfold emitResolved at h
  rcases h with h | h <;> split at h <;> simp at h <;> subst h <;>
    split <;> simp [stripBookkeeping]

/-- C9: every externally observable profile record — one dispatched as a
threads-profile-extracted event by the passive response observers, one
dispatched by the active fetch, or one the active fetch resolves with —
carries none of the three transient bookkeeping fields (label counter,
last-label index, value counter): they are deleted first. -/
theorem bookkeeping_never_escapes :
    (∀ (parsed : Option JVal) (rec : ProfileState),
        passiveProfileEmission parsed = some rec →
        rec.labelCount = none ∧ rec.lastLabelIndex = none ∧ rec.valueCount = none)
    ∧ (∀ (tokens : Option TokenBag) (map : IdMap) (tid : String) (resp : FetchResponse)
         (rec : ProfileState),
        FetchEvent.profileExtracted rec ∈ (fetchProfileInfo tokens map tid resp).events →
        rec.labelCount = none ∧ rec.lastLabelIndex = none ∧ rec.valueCount = none)
    ∧ (∀ (tokens : Option TokenBag) (map : IdMap) (tid : String) (resp : FetchResponse)
         (rec : ProfileState),
        (fetchProfileInfo tokens map tid resp).result = FetchResult.record rec →
        rec.labelCount = none ∧ rec.lastLabelIndex = none ∧ rec.valueCount = none) := by
  refine ⟨?_, ?_, ?_⟩
  · intro parsed rec h
    unfold passiveProfileEmission at h
    split at h
    · split at h
      · cases h
        simp [stripBookkeeping]
      · cases h
    · cases h
  · intro tokens map tid resp rec h
    unfold fetchProfileInfo at h
    split at h
    · simp at h
    · split at h
      · simp at h
      · split at h
        · exact emitResolved_bookkeeping (Or.inr h)
        · simp at h
  · intro tokens map tid resp rec h
    unfold fetchProfileInfo at h
    split at h
    · simp at h
    · split at h
      · simp at h
      · split at h
        · exact emitResolved_bookkeeping (Or.inl h)
        · simp at h

/-- Witness for C9: a concrete profile response whose record the passive
observer emits carries no bookkeeping fields. -/
theorem bookkeeping_never_escapes_witness :
    ∃ rec : ProfileState,
      passiveProfileEmission (some demoJaneTree) = some rec
      ∧ (rec.labelCount = none ∧ rec.lastLabelIndex = none ∧ rec.valueCount = none) := by
  have h : passiveProfileEmission (some demoJaneTree)
      = some (stripBookkeeping (extractProfileInfo demoJaneTree emptyProfile)) := rfl
  exact ⟨_, h, bookkeeping_never_escapes.1 (some demoJaneTree) _ h⟩

theorem usernameTruthy_strip (info : ProfileState) :
    usernameTruthy (stripBookkeeping info) = usernameTruthy info := by
  simp [usernameTruthy, stripBookkeeping]

theorem usernameTruthy_set (info : ProfileState) (uname : String) :
    usernameTruthy { info with username := some uname } = !uname.isEmpty := by
  simp [usernameTruthy]

/-- C8: on a non-429 response parsing to a record with no truthy
username, the active fetch resolves the username by reverse-scanning the
identity map for the target id's string form and the emitted and returned
record carries that username (map keys are usernames matching the
nonempty pattern, so a resolved key is nonempty); when the scan finds no
entry, a record with a truthy joined or location gets the placeholder
username user_ followed by the raw id and the id-only tag instead of
being discarded; and any record the fetch ever dispatches has a truthy
username, joined or location. -/
theorem fetch_username_resolution (bag : TokenBag) (map : IdMap) (tid : String)
    (resp : FetchResponse) (info : ProfileState)
    (hs : resp.status ≠ 429)
    (hp : parseProfileValue resp.parsedBody = some info)
    (hu : usernameTruthy info = false) :
    (∀ uname, reverseLookup map tid = some uname → uname.isEmpty = false →
      (fetchProfileInfo (some bag) map tid resp).result
        = FetchResult.record (stripBookkeeping { info with username := some uname })
      ∧ (fetchProfileInfo (some bag) map tid resp).events
        = [FetchEvent.profileExtracted (stripBookkeeping { info with username := some uname })])
    ∧ (reverseLookup map tid = none →
        (jsTruthyOpt info.joined || jsTruthyOpt info.location) = true →
        (fetchProfileInfo (some bag) map tid resp).result
          = FetchResult.record { stripBookkeeping info with
              username := some ("user_" ++ tid), userIdOnly := true }
        ∧ (fetchProfileInfo (some bag) map tid resp).events
          = [FetchEvent.profileExtracted { stripBookkeeping info with
              username := some ("user_" ++ tid), userIdOnly := true }])
    ∧ (∀ (tokens' : Option TokenBag) (map' : IdMap) (tid' : String) (resp' : FetchResponse)
         (rec : ProfileState),
        FetchEvent.profileExtracted rec ∈ (fetchProfileInfo tokens' map' tid' resp').events →
        (usernameTruthy rec || jsTruthyOpt rec.joined || jsTruthyOpt rec.location) = true) := by
  refine ⟨?_, ?_, ?_⟩
  · intro uname hrl hne
    have hres : resolveUsername map tid (parseProfileValue resp.parsedBody)
        = some { info with username := some uname } := by
      simp [resolveUsername, hp, hu, hrl]
    have hcond : usernameTruthy { info with username := some uname } = true := by
      simp [usernameTruthy_set, hne]
    unfold fetchProfileInfo
    simp only [hs, if_false, hres]
    unfold emitResolved
    simp [hcond, usernameTruthy_strip]
  · intro hrl hjl
    have hres : resolveUsername map tid (parseProfileValue resp.parsedBody) = some info := by
      simp [resolveUsername, hp, hu, hrl]
    unfold fetchProfileInfo
    simp only [hs, if_false, hres]
    unfold emitResolved
    simp [hu, hjl, usernameTruthy_strip]
  · intro tokens' map' tid' resp' rec h
    unfold fetchProfileInfo at h
    split at h
    · simp at h
    · split at h
      · simp at h
      · split at h
        · rename_i info2 heq2
          unfold emitResolved at h
          split at h
          · simp at h
            subst h
            split
            · simp [usernameTruthy, placeholder_username_nonempty]
            · rename_i hfalse
              have h2 : usernameTruthy (stripBookkeeping info2) = true := by
                simpa using hfalse
              simp [h2]
          · simp at h
        · simp at h

/-- Witness for C8: a concrete profile payload carrying only a joined
value, once fetched with a map binding zed to the target id (record
carries zed) and once with an empty map (record carries the placeholder
and id-only tag). -/
theorem fetch_username_resolution_witness :
    (fetchProfileInfo (some ⟨none, none, none⟩) [("zed", "55")] "55"
        ⟨200, some demoJoinedTree⟩).result
      = FetchResult.record (stripBookkeeping
          { extractProfileInfo demoJoinedTree emptyProfile with username := some "zed" })
    ∧ (fetchProfileInfo (some ⟨none, none, none⟩) [] "55"
        ⟨200, some demoJoinedTree⟩).result
      = FetchResult.record { stripBookkeeping (extractProfileInfo demoJoinedTree emptyProfile) with
          username := some ("user_" ++ "55"), userIdOnly := true } := by
  constructor
  · exact ((fetch_username_resolution ⟨none, none, none⟩ [("zed", "55")] "55"
      ⟨200, some demoJoinedTree⟩ (extractProfileInfo demoJoinedTree emptyProfile)
      (by decide) rfl (by rfl)).1 "zed" (by rfl) (by rfl)).1
  · exact ((fetch_username_resolution ⟨none, none, none⟩ [] "55"
      ⟨200, some demoJoinedTree⟩ (extractProfileInfo demoJoinedTree emptyProfile)
      (by decide) rfl (by rfl)).2.1 (by rfl) (by rfl)).1

theorem gapsUnderSecond_cons (e : Nat × String × String) (es : List (Nat × String × String)) :
    gapsUnderSecond (e :: es) = gapsFrom e.1 es := by
  induction es generalizing e with
  | nil => simp [gapsUnderSecond, gapsFrom]
  | cons b rest ih => simp [gapsUnderSecond, gapsFrom, ih]

theorem setKey_append_of_not_has (p : List (String × String)) (u i : String)
    (h : mapHas p u = false) : setKey p u i = p ++ [(u, i)] := by
  induction p with
  | nil => simp [setKey]
  | cons q rest ih =>
      obtain ⟨k, v⟩ := q
      simp [mapHas] at h
      simp [setKey, h.1, ih h.2]

theorem runEvents_burst (events : List (Nat × String × String)) :
    ∀ (st : MinerState) (tl : Nat),
      st.deadline = some (tl + 1000) →
      gapsFrom tl events = true →
      allFresh st.map events = true →
      (∀ k, mapHas st.pending k = true → mapHas st.map k = true) →
      runEvents events st =
        ({ map := st.map ++ pairsOf events,
           pending := st.pending ++ pairsOf events,
           deadline := some (lastTimeFrom tl events + 1000) }, []) := by
  induction events with
  | nil =>
      intro st tl hd _ _ _
      simp [runEvents, pairsOf, lastTimeFrom, ← hd]
  | cons e rest ih =>
      intro st tl hd hg hf hsub
      obtain ⟨t, u, i⟩ := e
      simp only [gapsFrom, Bool.and_eq_true, decide_eq_true_eq] at hg
      simp only [allFresh, Bool.and_eq_true, Bool.not_eq_true'] at hf
      have hnotdue : ¬(tl + 1000 ≤ t) := by omega
      have hfire : fireIfDue t st = (st, none) := by
        simp [fireIfDue, hd, hnotdue]
      have hadd : (addUserId t st u i).1 =
          { map := st.map ++ [(u, i)],
            pending := st.pending ++ [(u, i)],
            deadline := some (t + 1000) } := by
        have hp : mapHas st.pending u = false := by
          cases hpu : mapHas st.pending u with
          | false => rfl
          | true => rw [hsub u hpu] at hf; exact absurd hf.1 (by simp)
        simp [addUserId, hf.1, broadcastNewUserIds, setKey_append_of_not_has _ _ i hp]
      have hsub' : ∀ k, mapHas (st.pending ++ [(u, i)]) k = true →
          mapHas (st.map ++ [(u, i)]) k = true := by
        intro k hk
        rw [mapHas_append] at hk ⊢
        rcases Bool.or_eq_true_iff.mp hk with hk | hk
        · exact Bool.or_eq_true_iff.mpr (Or.inl (hsub k hk))
        · exact Bool.or_eq_true_iff.mpr (Or.inr hk)
      have := ih { map := st.map ++ [(u, i)],
                   pending := st.pending ++ [(u, i)],
                   deadline := some (t + 1000) } t rfl hg.2 hf.2 hsub'
      simp only [runEvents, hfire, hadd, this]
      simp [pairsOf, lastTimeFrom]

/-- C6: a nonempty burst of new-identity discoveries whose consecutive
gaps are each under one second, starting from a state with an empty
pending buffer and no armed timer (the state any previous broadcast
leaves), produces exactly one threads-new-user-ids broadcast, fired one
second after the last discovery, and it carries all the burst's pairs:
each discovery re-arms the timer, so nothing fires mid-burst. -/
theorem debounce_single_broadcast (events : List (Nat × String × String))
    (st0 : MinerState) (hne : events ≠ [])
    (hg : gapsUnderSecond events = true)
    (hf : allFresh st0.map events = true)
    (hp : st0.pending = []) (hd : st0.deadline = none) :
    (runTimeline events st0).2 = [⟨lastEventTime events + 1000, pairsOf events⟩] := by
  cases events with
  | nil => exact absurd rfl hne
  | cons e rest =>
      obtain ⟨t, u, i⟩ := e
      rw [gapsUnderSecond_cons] at hg
      simp only [allFresh, Bool.and_eq_true, Bool.not_eq_true'] at hf
      have hfire : fireIfDue t st0 = (st0, none) := by
        simp [fireIfDue, hd]
      have hadd : (addUserId t st0 u i).1 =
          { map := st0.map ++ [(u, i)],
            pending := [(u, i)],
            deadline := some (t + 1000) } := by
        simp [addUserId, hf.1, broadcastNewUserIds, hp, setKey]
      have hsub : ∀ k, mapHas ([(u, i)] : List (String × String)) k = true →
          mapHas (st0.map ++ [(u, i)]) k = true := by
        intro k hk
        rw [mapHas_append]
        exact Bool.or_eq_true_iff.mpr (Or.inr hk)
      have hrun := runEvents_burst rest
        { map := st0.map ++ [(u, i)], pending := [(u, i)], deadline := some (t + 1000) }
        t rfl hg hf.2 hsub
      unfold runTimeline
      simp only [runEvents, hfire, hadd, hrun]
      simp [pairsOf, lastEventTime, lastTimeFrom]

/-- Witness for C6: two discoveries 500 ms apart from the initial state
produce the single broadcast at 1500 ms carrying both pairs. -/
theorem debounce_single_broadcast_witness :
    (runTimeline [(0, "a", "1"), (500, "b", "2")] initMiner).2 =
      [⟨1500, [("a", "1"), ("b", "2")]⟩] :=
  debounce_single_broadcast [(0, "a", "1"), (500, "b", "2")] initMiner
    (by decide) (by decide) (by decide) rfl rfl

/-- Counterexample to C5: in a payload whose first route descriptor is
null, the second key /@b/y — decoded, matched, and exposing a truthy
digit identifier at the rootView path — yields no mapping, because the
null descriptor's unchained first property access throws a TypeError
(caught by the surrounding handler) and aborts the loop: an error is
raised and a matched key's mapping is not produced. -/
theorem route_null_descriptor_aborts_counterexample :
    processRouteEntries 0 demoRouteEntries initMiner = (initMiner, true)
    ∧ leadingAtUsername (decodeRouteKey "/@b/y") = some "b"
    ∧ routeDescriptorUserId demoRouteDescB = Except.ok (some (JVal.str "7"))
    ∧ jsTruthy (JVal.str "7") = true
    ∧ mapGet (processRouteEntries 0 demoRouteEntries initMiner).1.map "b" = none := by
  refine ⟨rfl, rfl, rfl, rfl, rfl⟩

/-- C5 as amended: for each route key of a bulk-route payload whose
descriptor is reached (no earlier descriptor was null), the key is
JSON-unescaped with fallback to the raw key; a decoded key matching the
leading /@username segment with a truthy identifier at the rootView or
else the hostableView props path (first truthy wins, as
routeDescriptorUserId computes) inserts the identifier's string form via
addUserId; a matched key with no truthy identifier at either path and an
unmatched key produce no mapping and no error; a null descriptor behind
a matched key throws a caught TypeError that aborts the remaining
keys with no mapping recorded. -/
theorem route_definitions_mining (now : Nat) (st : MinerState) (k : String) (rd : JVal) :
    (∀ (u : String) (uid : JVal),
      leadingAtUsername (decodeRouteKey k) = some u →
      routeDescriptorUserId rd = Except.ok (some uid) → jsTruthy uid = true →
      processRouteEntries now [(k, rd)] st = ((addUserId now st u (jsString uid)).1, false))
    ∧ (∀ (u : String),
      leadingAtUsername (decodeRouteKey k) = some u →
      routeDescriptorUserId rd = Except.ok none →
      processRouteEntries now [(k, rd)] st = (st, false))
    ∧ (∀ (u : String) (x : JVal),
      leadingAtUsername (decodeRouteKey k) = some u →
      routeDescriptorUserId rd = Except.ok (some x) → jsTruthy x = false →
      processRouteEntries now [(k, rd)] st = (st, false))
    ∧ (leadingAtUsername (decodeRouteKey k) = none →
      processRouteEntries now [(k, rd)] st = (st, false))
    ∧ (∀ (u : String) (rest : List (String × JVal)),
      leadingAtUsername (decodeRouteKey k) = some u →
      rd = JVal.null →
      processRouteEntries now ((k, rd) :: rest) st = (st, true)) := by
  refine ⟨?_, ?_, ?_, ?_, ?_⟩
  · intro u uid hm hr ht
    simp [processRouteEntries, routeStep, hm, hr, ht]
  · intro u hm hr
    simp [processRouteEntries, routeStep, hm, hr]
  · intro u x hm hr ht
    simp [processRouteEntries, routeStep, hm, hr, ht]
  · intro hm
    cases hrd : routeDescriptorUserId rd with
    | error e => simp [processRouteEntries, routeStep, hm, hrd]
    | ok c => simp [processRouteEntries, routeStep, hm, hrd]
  · intro u rest hm hnull
    subst hnull
    simp [processRouteEntries, routeStep, hm, routeDescriptorUserId]

/-- Witness for the amended C5: a concrete matched key with a rootView
identifier inserts alice mapped to its string form, and a concrete
descriptor with neither path produces no mapping and no error. -/
theorem route_definitions_mining_witness :
    processRouteEntries 0 [("/@alice/post", demoRouteDescB)] initMiner
      = ((addUserId 0 initMiner "alice" (jsString (JVal.str "7"))).1, false)
    ∧ processRouteEntries 0 [("/@carol", JVal.obj [("result", JVal.obj [])])] initMiner
      = (initMiner, false) := by
  constructor
  · exact (route_definitions_mining 0 initMiner "/@alice/post" demoRouteDescB).1
      "alice" (JVal.str "7") rfl rfl rfl
  · exact (route_definitions_mining 0 initMiner "/@carol"
      (JVal.obj [("result", JVal.obj [])])).2.1 "carol" rfl rfl

theorem isStrVal_excl {x : Option JVal} {a b : String} (h : isStrVal x a = true)
    (hne : ¬ a = b) : isStrVal x b = false := by
  cases x with
  | none => simp [isStrVal] at h
  | some w =>
      cases w <;> simp [isStrVal] at h ⊢
      rename_i s
      rw [h]
      exact hne

/-- Counterexample to C4: a text node styled semibold whose text is the
empty string (falsy) does not increment the label counter and does not
become the pending label — the walk leaves the counter at 0 with no
pending marker, though the claim requires every semibold text node to
increment it. -/
theorem text_empty_label_counterexample :
    isStrVal (getField (JVal.obj [("text", JVal.str ""), ("text_style", JVal.str "semibold")])
      "text_style") "semibold" = true
    ∧ (extractProfileInfo (mkTextNode "" "semibold") emptyProfile).labelCount = some 0
    ∧ (extractProfileInfo (mkTextNode "" "semibold") emptyProfile).lastLabelIndex = none := by
  refine ⟨rfl, rfl, rfl⟩

/-- C4 as amended: every text node styled semibold with truthy (nonempty)
text increments the label counter and becomes the pending label; a text
node styled normal with truthy text seen while a label is pending is
assigned by the pending label's ordinal, not its text: ordinal 2 sets
joined and ordinal 3 sets location, each only when not already truthy
(first-writer-wins), ordinal 1 is ignored; and in every such case the
pending marker is cleared afterwards, so later normal-styled text cannot
attach to a stale label. A semibold or normal node whose text is falsy
(such as the empty string) is skipped entirely. -/
theorem text_label_ordinals (v comp : JVal) (r : ProfileState) (n : Nat)
    (hgf : getField v "bk.components.Text" = some comp) (hct : jsTruthy comp = true)
    (hlc : r.labelCount = some n) :
    (isStrVal (getField comp "text_style") "semibold" = true →
     jsTruthyOpt (getField comp "text") = true →
     textStep v r = { r with labelCount := some (n + 1), lastLabelIndex := some (n + 1) })
    ∧ (isStrVal (getField comp "text_style") "normal" = true →
       jsTruthyOpt (getField comp "text") = true →
       ((r.lastLabelIndex = some 2 → jsTruthyOpt r.joined = false →
         textStep v r = { r with joined := getField comp "text", lastLabelIndex := none })
        ∧ (r.lastLabelIndex = some 3 → jsTruthyOpt r.location = false →
         textStep v r = { r with location := getField comp "text", lastLabelIndex := none })
        ∧ (r.lastLabelIndex = some 1 →
         textStep v r = { r with lastLabelIndex := none })
        ∧ (r.lastLabelIndex = some 2 → jsTruthyOpt r.joined = true →
         textStep v r = { r with lastLabelIndex := none })
        ∧ (r.lastLabelIndex = some 3 → jsTruthyOpt r.location = true →
         textStep v r = { r with lastLabelIndex := none })))
    ∧ (jsTruthyOpt (getField comp "text") = false → textStep v r = r) := by
  refine ⟨?_, ?_, ?_⟩
  · intro hsty htxt
    unfold textStep
    rw [hgf]
    simp [hct, hsty, htxt, hlc]
  · intro hsty htxt
    have hnsb : isStrVal (getField comp "text_style") "semibold" = false :=
      isStrVal_excl hsty (by decide)
    refine ⟨?_, ?_, ?_, ?_, ?_⟩
    · intro hidx hj
      unfold textStep
      rw [hgf]
      simp [hct, hnsb, hsty, htxt, labelPending, hidx, hj]
    · intro hidx hl
      unfold textStep
      rw [hgf]
      simp [hct, hnsb, hsty, htxt, labelPending, hidx, hl]
    · intro hidx
      unfold textStep
      rw [hgf]
      simp [hct, hnsb, hsty, htxt, labelPending, hidx]
    · intro hidx hj
      unfold textStep
      rw [hgf]
      simp [hct, hnsb, hsty, htxt, labelPending, hidx, hj]
    · intro hidx hl
      unfold textStep
      rw [hgf]
      simp [hct, hnsb, hsty, htxt, labelPending, hidx, hl]
  · intro htxt
    unfold textStep
    rw [hgf]
    simp [hct, htxt]

/-- Witness for the amended C4: a concrete semibold label increments the
counter from 0 and a concrete normal value under pending ordinal 2 sets
joined and clears the marker. -/
theorem text_label_ordinals_witness :
    textStep (mkTextNode "Joined" "semibold") (initCounters emptyProfile)
      = { initCounters emptyProfile with labelCount := some 1, lastLabelIndex := some 1 }
    ∧ textStep (mkTextNode "March 2020" "normal")
        ⟨none, none, none, none, none, some 2, some 2, some 0, false⟩
      = { (⟨none, none, none, none, none, some 2, some 2, some 0, false⟩ : ProfileState) with
          joined := getField (JVal.obj [("text", JVal.str "March 2020"),
            ("text_style", JVal.str "normal")]) "text", lastLabelIndex := none } := by
  constructor
  · exact (text_label_ordinals (mkTextNode "Joined" "semibold")
      (JVal.obj [("text", JVal.str "Joined"), ("text_style", JVal.str "semibold")])
      (initCounters emptyProfile) 0 rfl rfl rfl).1 rfl rfl
  · exact (((text_label_ordinals (mkTextNode "March 2020" "normal")
      (JVal.obj [("text", JVal.str "March 2020"), ("text_style", JVal.str "normal")])
      ⟨none, none, none, none, none, some 2, some 2, some 0, false⟩ 2 rfl rfl rfl).2.1
      rfl rfl).1) rfl rfl

theorem addUserId_has_self (now : Nat) (st : MinerState) (u i : String) :
    mapHas ((addUserId now st u i).1).map u = true := by
  unfold addUserId
  by_cases h : mapHas st.map u
  · simp [h]
  · simp [h, broadcastNewUserIds, mapHas_append, mapHas]

theorem addUserId_has_mono {st : MinerState} {x : String} (now : Nat) (u i : String)
    (h : mapHas st.map x = true) : mapHas ((addUserId now st u i).1).map x = true := by
  unfold addUserId
  by_cases hh : mapHas st.map u
  · simp [hh, h]
  · simp [hh, broadcastNewUserIds, mapHas_append, h]

theorem nodupKeys_append_single {m : IdMap} {u i : String}
    (hnd : nodupKeys m = true) (hnew : mapHas m u = false) :
    nodupKeys (m ++ [(u, i)]) = true := by
  induction m with
  | nil => simp [nodupKeys, mapHas]
  | cons p rest ih =>
      obtain ⟨k, v⟩ := p
      simp only [nodupKeys, Bool.and_eq_true, Bool.not_eq_true'] at hnd
      simp only [mapHas, Bool.or_eq_false_iff, decide_eq_false_iff_not] at hnew
      simp only [List.cons_append, nodupKeys, Bool.and_eq_true, Bool.not_eq_true']
      refine ⟨?_, ih hnd.2 hnew.2⟩
      show mapHas (rest ++ [(u, i)]) k = false
      rw [mapHas_append]
      simp only [Bool.or_eq_false_iff]
      refine ⟨hnd.1, ?_⟩
      simp only [mapHas, Bool.or_eq_false_iff, decide_eq_false_iff_not]
      exact ⟨fun hku => hnew.1 hku.symm, trivial⟩

theorem addUserId_nodup {st : MinerState} (now : Nat) (u i : String)
    (h : nodupKeys st.map = true) : nodupKeys ((addUserId now st u i).1).map = true := by
  unfold addUserId
  by_cases hh : mapHas st.map u
  · simpa [hh]
  · simp only [hh, Bool.false_eq_true, if_false, broadcastNewUserIds]
    exact nodupKeys_append_single h (by simpa using hh)

theorem addCandidates_preserves (P : IdMap → Prop)
    (hstep : ∀ (now : Nat) (st : MinerState) (u i : String),
      P st.map → P ((addUserId now st u i).1).map)
    (now : Nat) (cs : List (String × String)) :
    ∀ st : MinerState, P st.map → P (addCandidates now cs st).map := by
  induction cs with
  | nil => intro st h; simpa [addCandidates]
  | cons p rest ih =>
      intro st h
      obtain ⟨u, i⟩ := p
      simp only [addCandidates]
      exact ih _ (hstep now st u i h)

theorem addCandidates_covers (now : Nat) (cs : List (String × String)) :
    ∀ (st : MinerState) (u i : String), (u, i) ∈ cs →
      mapHas (addCandidates now cs st).map u = true := by
  induction cs with
  | nil => intro st u i h; cases h
  | cons p rest ih =>
      intro st u i h
      obtain ⟨u', i'⟩ := p
      rcases List.mem_cons.mp h with heq | hmem
      · rw [Prod.mk.injEq] at heq
        obtain ⟨he1, he2⟩ := heq
        subst he1
        simp only [addCandidates]
        exact addCandidates_preserves (fun m => mapHas m u = true)
          (fun now st a b hh => addUserId_has_mono now a b hh) now rest _
          (addUserId_has_self now st u i')
      · simp only [addCandidates]
        exact ih _ u i hmem

theorem addUserId_stable {st : MinerState} (now : Nat) (u i : String)
    (h : mapHas st.map u = true) : (addUserId now st u i).1 = st := by
  simp [addUserId, h]

theorem addCandidates_stable (now : Nat) (cs : List (String × String)) :
    ∀ st : MinerState, (∀ p ∈ cs, mapHas st.map p.1 = true) →
      addCandidates now cs st = st := by
  induction cs with
  | nil => intro st _; rfl
  | cons p rest ih =>
      intro st h
      obtain ⟨u, i⟩ := p
      have h1 : (addUserId now st u i).1 = st :=
        addUserId_stable now u i (h (u, i) (List.mem_cons_self _ _))
      simp only [addCandidates, h1]
      exact ih st (fun q hq => h q (List.mem_cons_of_mem _ hq))

theorem extract_preserves (P : IdMap → Prop)
    (hstep : ∀ (now : Nat) (st : MinerState) (u i : String),
      P st.map → P ((addUserId now st u i).1).map)
    (now : Nat) :
    (∀ (v : JVal) (st : MinerState), P st.map → P (extractUserIds now v st).map)
    ∧ (∀ (xs : List JVal) (st : MinerState), P st.map → P (extractUserIdsList now xs st).map)
    ∧ (∀ (fs : List (String × JVal)) (st : MinerState),
        P st.map → P (extractUserIdsFields now fs st).map) := by
  refine extractUserIds.mutual_induct now
    (fun v st => P st.map → P (extractUserIds now v st).map)
    (fun xs st => P st.map → P (extractUserIdsList now xs st).map)
    (fun fs st => P st.map → P (extractUserIdsFields now fs st).map)
    ?_ ?_ ?_ ?_ ?_ ?_ ?_
  · intro fields st ih hP
    simp only [extractUserIds]
    exact ih (addCandidates_preserves P hstep now _ st hP)
  · intro xs st ih hP
    simp only [extractUserIds]
    exact ih (addCandidates_preserves P hstep now _ st hP)
  · intro t st h1 h2 hP
    cases t with
    | obj fields => exact absurd rfl (h1 fields)
    | arr xs => exact absurd rfl (h2 xs)
    | null => simpa [extractUserIds]
    | bool b => simpa [extractUserIds]
    | num n => simpa [extractUserIds]
    | str s => simpa [extractUserIds]
  · intro st hP
    simpa [extractUserIdsList]
  · intro v rest st ih1 ih2 hP
    simp only [extractUserIdsList]
    exact ih2 (ih1 hP)
  · intro st hP
    simpa [extractUserIdsFields]
  · intro k v rest st ih1 ih2 hP
    simp only [extractUserIdsFields]
    exact ih2 (ih1 hP)

theorem extract_mono (now : Nat) (x : String) :
    (∀ (v : JVal) (st : MinerState), mapHas st.map x = true →
        mapHas (extractUserIds now v st).map x = true)
    ∧ (∀ (xs : List JVal) (st : MinerState), mapHas st.map x = true →
        mapHas (extractUserIdsList now xs st).map x = true)
    ∧ (∀ (fs : List (String × JVal)) (st : MinerState), mapHas st.map x = true →
        mapHas (extractUserIdsFields now fs st).map x = true) :=
  extract_preserves (fun m => mapHas m x = true)
    (fun now st u i h => addUserId_has_mono now u i h) now

theorem extract_nodup (now : Nat) :
    ∀ (v : JVal) (st : MinerState), nodupKeys st.map = true →
      nodupKeys (extractUserIds now v st).map = true :=
  (extract_preserves (fun m => nodupKeys m = true)
    (fun now st u i h => addUserId_nodup now u i h) now).1

theorem extract_covers (now : Nat) :
    (∀ (v : JVal) (st : MinerState), ∀ x ∈ yieldedUsernames v,
        mapHas (extractUserIds now v st).map x = true)
    ∧ (∀ (xs : List JVal) (st : MinerState), ∀ x ∈ yieldedUsernamesList xs,
        mapHas (extractUserIdsList now xs st).map x = true)
    ∧ (∀ (fs : List (String × JVal)) (st : MinerState), ∀ x ∈ yieldedUsernamesFields fs,
        mapHas (extractUserIdsFields now fs st).map x = true) := by
  refine extractUserIds.mutual_induct now
    (fun v st => ∀ x ∈ yieldedUsernames v, mapHas (extractUserIds now v st).map x = true)
    (fun xs st => ∀ x ∈ yieldedUsernamesList xs,
      mapHas (extractUserIdsList now xs st).map x = true)
    (fun fs st => ∀ x ∈ yieldedUsernamesFields fs,
      mapHas (extractUserIdsFields now fs st).map x = true)
    ?_ ?_ ?_ ?_ ?_ ?_ ?_
  · intro fields st ih x hx
    simp only [yieldedUsernames] at hx
    simp only [extractUserIds]
    rcases List.mem_append.mp hx with hx | hx
    · obtain ⟨⟨u', i'⟩, hpc, hfst⟩ := List.mem_map.mp hx
      subst hfst
      exact (extract_mono now u').2.2 fields _
        (addCandidates_covers now _ st u' i' hpc)
    · exact ih x hx
  · intro xs st ih x hx
    simp only [yieldedUsernames] at hx
    simp only [extractUserIds]
    rcases List.mem_append.mp hx with hx | hx
    · obtain ⟨⟨u', i'⟩, hpc, hfst⟩ := List.mem_map.mp hx
      subst hfst
      exact (extract_mono now u').2.1 xs _
        (addCandidates_covers now _ st u' i' hpc)
    · exact ih x hx
  · intro t st h1 h2 x hx
    cases t with
    | obj fields => exact absurd rfl (h1 fields)
    | arr xs => exact absurd rfl (h2 xs)
    | null => cases hx
    | bool b => cases hx
    | num n => cases hx
    | str s => cases hx
  · intro st x hx
    cases hx
  · intro v rest st ih1 ih2 x hx
    simp only [yieldedUsernamesList] at hx
    simp only [extractUserIdsList]
    rcases List.mem_append.mp hx with hx | hx
    · exact (extract_mono now x).2.1 rest _ (ih1 x hx)
    · exact ih2 x hx
  · intro st x hx
    cases hx
  · intro k v rest st ih1 ih2 x hx
    simp only [yieldedUsernamesFields] at hx
    simp only [extractUserIdsFields]
    rcases List.mem_append.mp hx with hx | hx
    · exact (extract_mono now x).2.2 rest _ (ih1 x hx)
    · exact ih2 x hx

theorem extract_stable (now : Nat) :
    (∀ (v : JVal) (st : MinerState), (∀ x ∈ yieldedUsernames v, mapHas st.map x = true) →
        extractUserIds now v st = st)
    ∧ (∀ (xs : List JVal) (st : MinerState),
        (∀ x ∈ yieldedUsernamesList xs, mapHas st.map x = true) →
        extractUserIdsList now xs st = st)
    ∧ (∀ (fs : List (String × JVal)) (st : MinerState),
        (∀ x ∈ yieldedUsernamesFields fs, mapHas st.map x = true) →
        extractUserIdsFields now fs st = st) := by
  refine extractUserIds.mutual_induct now
    (fun v st => (∀ x ∈ yieldedUsernames v, mapHas st.map x = true) →
      extractUserIds now v st = st)
    (fun xs st => (∀ x ∈ yieldedUsernamesList xs, mapHas st.map x = true) →
      extractUserIdsList now xs st = st)
    (fun fs st => (∀ x ∈ yieldedUsernamesFields fs, mapHas st.map x = true) →
      extractUserIdsFields now fs st = st)
    ?_ ?_ ?_ ?_ ?_ ?_ ?_
  · intro fields st ih hall
    have hstable : addCandidates now (nodeCandidates (JVal.obj fields)) st = st := by
      apply addCandidates_stable
      intro p hp
      apply hall p.1
      simp only [yieldedUsernames]
      exact List.mem_append_left _ (List.mem_map_of_mem _ hp)
    rw [hstable] at ih
    simp only [extractUserIds, hstable]
    apply ih
    intro x hx
    apply hall x
    simp only [yieldedUsernames]
    exact List.mem_append_right _ hx
  · intro xs st ih hall
    have hstable : addCandidates now (nodeCandidates (JVal.arr xs)) st = st := by
      apply addCandidates_stable
      intro p hp
      apply hall p.1
      simp only [yieldedUsernames]
      exact List.mem_append_left _ (List.mem_map_of_mem _ hp)
    rw [hstable] at ih
    simp only [extractUserIds, hstable]
    apply ih
    intro x hx
    apply hall x
    simp only [yieldedUsernames]
    exact List.mem_append_right _ hx
  · intro t st h1 h2 hall
    cases t with
    | obj fields => exact absurd rfl (h1 fields)
    | arr xs => exact absurd rfl (h2 xs)
    | null => rfl
    | bool b => rfl
    | num n => rfl
    | str s => rfl
  · intro st hall
    rfl
  · intro v rest st ih1 ih2 hall
    have h1 : extractUserIds now v st = st := by
      apply ih1
      intro x hx
      apply hall x
      simp only [yieldedUsernamesList]
      exact List.mem_append_left _ hx
    rw [h1] at ih2
    simp only [extractUserIdsList, h1]
    apply ih2
    intro x hx
    apply hall x
    simp only [yieldedUsernamesList]
    exact List.mem_append_right _ hx
  · intro st hall
    rfl
  · intro k v rest st ih1 ih2 hall
    have h1 : extractUserIds now v st = st := by
      apply ih1
      intro x hx
      apply hall x
      simp only [yieldedUsernamesFields]
      exact List.mem_append_left _ hx
    rw [h1] at ih2
    simp only [extractUserIdsFields, h1]
    apply ih2
    intro x hx
    apply hall x
    simp only [yieldedUsernamesFields]
    exact List.mem_append_right _ hx

theorem mem_yieldedFields {x : String} {v : JVal} (fs : List (String × JVal)) (k : String)
    (hmem : (k, v) ∈ fs) (hx : x ∈ yieldedUsernames v) : x ∈ yieldedUsernamesFields fs := by
  induction fs with
  | nil => cases hmem
  | cons p rest ih =>
      simp only [yieldedUsernamesFields]
      rcases List.mem_cons.mp hmem with heq | hmem'
      · subst heq
        exact List.mem_append_left _ hx
      · exact List.mem_append_right _ (ih hmem')

theorem mem_yieldedList {x : String} {v : JVal} (xs : List JVal)
    (hmem : v ∈ xs) (hx : x ∈ yieldedUsernames v) : x ∈ yieldedUsernamesList xs := by
  induction xs with
  | nil => cases hmem
  | cons w rest ih =>
      simp only [yieldedUsernamesList]
      rcases List.mem_cons.mp hmem with heq | hmem'
      · subst heq
        exact List.mem_append_left _ hx
      · exact List.mem_append_right _ (ih hmem')

theorem yielded_of_inTree {w v : JVal} {u i : String}
    (hin : InTree w v) (hc : (u, i) ∈ nodeCandidates w) : u ∈ yieldedUsernames v := by
  induction hin with
  | refl =>
      cases w with
      | obj fields =>
          simp only [yieldedUsernames]
          exact List.mem_append_left _ (List.mem_map_of_mem _ hc)
      | arr xs =>
          simp only [yieldedUsernames]
          exact List.mem_append_left _ (List.mem_map_of_mem _ hc)
      | null => cases hc
      | bool b => simp [nodeCandidates, idPairCand, pkPairCand, nestedUserCand, getField] at hc
      | num n => simp [nodeCandidates, idPairCand, pkPairCand, nestedUserCand, getField] at hc
      | str s => simp [nodeCandidates, idPairCand, pkPairCand, nestedUserCand, getField] at hc
  | objField hmem hin ih =>
      simp only [yieldedUsernames]
      exact List.mem_append_right _ (mem_yieldedFields _ _ hmem ih)
  | arrElem hmem hin ih =>
      simp only [yieldedUsernames]
      exact List.mem_append_right _ (mem_yieldedList _ hmem ih)

theorem countKey_zero {m : IdMap} {u : String} (h : mapHas m u = false) :
    countKey m u = 0 := by
  induction m with
  | nil => rfl
  | cons p rest ih =>
      obtain ⟨k, v⟩ := p
      simp only [mapHas, Bool.or_eq_false_iff, decide_eq_false_iff_not] at h
      simp only [countKey, List.filter_cons]
      simp only [show (decide ((k, v).1 = u)) = false from by simp [h.1], Bool.false_eq_true,
        if_false]
      exact ih h.2

theorem countKey_one {m : IdMap} {u : String} (hnd : nodupKeys m = true)
    (hh : mapHas m u = true) : countKey m u = 1 := by
  induction m with
  | nil => cases hh
  | cons p rest ih =>
      obtain ⟨k, v⟩ := p
      simp only [nodupKeys, Bool.and_eq_true, Bool.not_eq_true'] at hnd
      simp only [mapHas, Bool.or_eq_true, decide_eq_true_eq] at hh
      simp only [countKey, List.filter_cons]
      by_cases hk : k = u
      · have hz : countKey rest u = 0 := countKey_zero (by rw [← hk]; exact hnd.1)
        simp only [countKey] at hz
        simp only [show (decide ((k, v).1 = u)) = true from by simp [hk], if_true,
          List.length_cons, hz]
      · simp only [show (decide ((k, v).1 = u)) = false from by simp [hk], Bool.false_eq_true,
          if_false]
        rcases hh with hh | hh
        · exact absurd hh hk
        · exact ih hnd.2 hh

/-- Counterexample to C1: the pair with identifier the number 0 and
username alice — whose identifier stringifies to the all-digits 0 and
whose username matches the pattern — is not discovered: 0 is falsy, so
the `id` together with `username` truthiness guard skips the node and no
mapping is inserted. -/
theorem extract_zero_id_counterexample :
    isDigitsStr (jsString (JVal.num 0)) = true
    ∧ isUnameStr (jsString (JVal.str "alice")) = true
    ∧ (extractUserIds 0 (JVal.obj [("id", JVal.num 0), ("username", JVal.str "alice")])
        initMiner).map = [] := by
  refine ⟨by decide, by decide, by decide⟩

/-- C1 as amended: for every pair fired at any node of an arbitrarily
nested JSON tree — an id+username pair, a pk+username pair, or a nested
user object carrying pk-or-id plus username, in each case with truthy
fields (a numeric identifier 0 is skipped by the truthiness guards)
whose string forms pass the all-digits and username patterns, as
nodeCandidates captures — extractUserIds discovers the pair: the
username is mapped afterwards, keys stay unique so it holds exactly one
mapping, and re-running extractUserIds on the same tree at any later
instant leaves the entire miner state unchanged (idempotent, no
duplicates, no overwrites). -/
theorem extract_user_ids_discovery (now now2 : Nat) (v w : JVal) (st : MinerState)
    (u i : String) (hin : InTree w v) (hc : (u, i) ∈ nodeCandidates w)
    (hnd : nodupKeys st.map = true) :
    mapHas (extractUserIds now v st).map u = true
    ∧ nodupKeys (extractUserIds now v st).map = true
    ∧ countKey (extractUserIds now v st).map u = 1
    ∧ extractUserIds now2 v (extractUserIds now v st) = extractUserIds now v st := by
  have hy := yielded_of_inTree hin hc
  have hhas := (extract_covers now).1 v st u hy
  have hnd2 := extract_nodup now v st hnd
  refine ⟨hhas, hnd2, countKey_one hnd2 hhas, ?_⟩
  exact (extract_stable now2).1 v _ (fun x hx => (extract_covers now).1 v st x hx)

/-- Witness for the amended C1: a concrete id+username node mined from
the empty state maps bob exactly once, and a re-run at a later instant
changes nothing. -/
theorem extract_user_ids_discovery_witness :
    mapHas (extractUserIds 0 (JVal.obj [("id", JVal.str "42"), ("username", JVal.str "bob")])
      initMiner).map "bob" = true
    ∧ countKey (extractUserIds 0 (JVal.obj [("id", JVal.str "42"), ("username", JVal.str "bob")])
      initMiner).map "bob" = 1
    ∧ extractUserIds 5 (JVal.obj [("id", JVal.str "42"), ("username", JVal.str "bob")])
        (extractUserIds 0 (JVal.obj [("id", JVal.str "42"), ("username", JVal.str "bob")])
          initMiner)
      = extractUserIds 0 (JVal.obj [("id", JVal.str "42"), ("username", JVal.str "bob")])
          initMiner := by
  have h := extract_user_ids_discovery 0 5
    (JVal.obj [("id", JVal.str "42"), ("username", JVal.str "bob")])
    (JVal.obj [("id", JVal.str "42"), ("username", JVal.str "bob")]) initMiner "bob" "42"
    (InTree.refl _) (by decide) rfl
  exact ⟨h.1, h.2.2.1, h.2.2.2⟩
